import Mathlib

/-
Verification development for the hotel knowledge-base pipeline.

The repository's checked-in source (`streamlit_app.py`) is the presentation
layer: it configures and invokes the crawl/chunk engine (`RealHotelScraper`,
`create_knowledge_chunks`, `process_uploaded_document`) whose code is not part
of the checked-in sources.  Definitions for the engine below are therefore
modelled from the specification (marked `Modelled from the spec:`), while the
UI gating and widget-range definitions are translated from
`src/streamlit_app.py` directly.
-/

namespace HotelKB

/-! ## Character and word level text utilities -/

/-- Modelled from the spec: whitespace recognition used for trimming and
word splitting (the content extractor "collapses whitespace"). -/
def isWS (c : Char) : Bool :=
  c == ' ' || c == '\t' || c == '\n' || c == '\r'

/-- Modelled from the spec: trimming of leading/trailing whitespace, used to
detect "empty or whitespace-only units". -/
def trimChars (l : List Char) : List Char :=
  ((l.dropWhile isWS).reverse.dropWhile isWS).reverse

/-- Accumulating word splitter: `cur` holds the reversed characters of the
word being read. -/
def wordsGo : List Char → List Char → List String
  | cur, [] => if cur.isEmpty then [] else [String.mk cur.reverse]
  | cur, c :: cs =>
    if isWS c then
      if cur.isEmpty then wordsGo [] cs
      else String.mk cur.reverse :: wordsGo [] cs
    else wordsGo (c :: cur) cs

/-- Modelled from the spec: splitting extracted text into words for word
counts and keyword-density scoring. -/
def words (s : String) : List String := wordsGo [] s.toList

/-- Modelled from the spec: the word count attached to a `PageRecord` and
compared against the minimum-word filter. -/
def countWords (s : String) : Nat := (words s).length

/-- Does `pat` occur at the start of `l`? -/
def beginsWith : List Char → List Char → Bool
  | _, [] => true
  | [], _ :: _ => false
  | a :: as, b :: bs => a == b && beginsWith as bs

/-- Does `pat` occur anywhere inside `l`? -/
def containsChars : List Char → List Char → Bool
  | [], pat => pat.isEmpty
  | l@(_ :: tl), pat => beginsWith l pat || containsChars tl pat

/-- Substring test on strings, used for URL keyword and disallow-list
matching. -/
def containsSub (s pat : String) : Bool :=
  containsChars s.toList pat.toList

/-- Drops characters up to and including the first `://` separator. -/
def dropScheme : List Char → List Char
  | ':' :: '/' :: '/' :: rest => rest
  | _ :: rest => dropScheme rest
  | [] => []

/-- Modelled from the spec: the host part of a URL, used for the
same-domain link filter. -/
def hostOf (s : String) : String :=
  String.mk ((dropScheme s.toList).takeWhile (fun c => !(c == '/')))

/-- Modelled from the spec: URL normalization — "strips fragments/query
noise where they do not affect content identity". -/
def normalizeUrl (s : String) : String :=
  String.mk (s.toList.takeWhile (fun c => !(c == '#' || c == '?')))

/-- Modelled from the spec: "seed_url must be absolute http(s)". -/
def isAbsHttp (s : String) : Bool :=
  beginsWith s.toList "http://".toList || beginsWith s.toList "https://".toList

/-! ## Page classifier -/

/-- Modelled from the spec: the fixed set of page content types. -/
inductive PageType where
  | rooms | pricing | amenity | dining | policy | contact | about | other
deriving DecidableEq

/-- Modelled from the spec: the fixed declaration order of the classifiable
types, used for deterministic tie-breaking
(rooms > pricing > amenity > dining > policy > contact > about). -/
def typeOrder : List PageType :=
  [.rooms, .pricing, .amenity, .dining, .policy, .contact, .about]

/-- Modelled from the spec: URL path keywords per type for the first stage
of the classifier cascade. -/
def urlKeywords : PageType → List String
  | .rooms => ["room", "suite", "accommodation"]
  | .pricing => ["rate", "price", "tariff"]
  | .amenity => ["amenit", "facilit", "spa"]
  | .dining => ["dining", "restaurant", "menu"]
  | .policy => ["policy", "policies", "terms"]
  | .contact => ["contact"]
  | .about => ["about", "history"]
  | .other => []

/-- Modelled from the spec: the fixed vocabulary per type for the
keyword-density fallback stage of the classifier. -/
def textKeywords : PageType → List String
  | .rooms => ["room", "bed", "suite"]
  | .pricing => ["rate", "price", "night"]
  | .amenity => ["pool", "spa", "gym", "wifi"]
  | .dining => ["restaurant", "menu", "breakfast"]
  | .policy => ["policy", "cancellation", "check-in"]
  | .contact => ["contact", "phone", "email"]
  | .about => ["about", "history", "welcome"]
  | .other => []

/-- Modelled from the spec: keyword density of a type over the words of a
page's text. -/
def keywordScore (t : PageType) (ws : List String) : Nat :=
  ws.countP (fun w => (textKeywords t).any (fun k => containsSub w k))

/-- Modelled from the spec: first classifier stage — URL path keyword
match, first matching type in declaration order wins. -/
def classifyByUrl (url : String) : Option PageType :=
  typeOrder.find? (fun t => (urlKeywords t).any (fun k => containsSub url k))

/-- One selection step of the density argmax: a candidate replaces the
accumulator only on a strictly larger score, so earlier types win ties. -/
def pickStep (ws : List String) (acc : PageType × Nat) (t : PageType) : PageType × Nat :=
  if keywordScore t ws > acc.2 then (t, keywordScore t ws) else acc

/-- Modelled from the spec: best-scoring type in declaration order (ties
broken in favour of the earlier type). -/
def pickBest (ws : List String) : PageType × Nat :=
  typeOrder.foldl (pickStep ws) (PageType.other, 0)

/-- Modelled from the spec: the minimum density threshold below which a
page is classified as `other`. -/
def densityThreshold : Nat := 1

/-- Modelled from the spec: `classify(url, text) -> page_type`, a
deterministic rule cascade — URL keywords first, then keyword density with
a minimum threshold, else `other`. -/
def classify (url text : String) : PageType :=
  match classifyByUrl url with
  | some t => t
  | none =>
    let b := pickBest (words text)
    if densityThreshold ≤ b.2 then b.1 else PageType.other

/-! ## Data model -/

/-- Modelled from the spec: `PageRecord` — one retained crawled page.
`fetched_at` records the (modelled) wall-clock instant the fetch was
issued. -/
structure PageRecord where
  url : String
  title : String
  content : String
  page_type : PageType
  word_count : Nat
  fetched_at : ℚ

/-- Modelled from the spec: aggregate metadata of a `SiteResult`
(`total_words`, per-type counts, `pages_scraped`). -/
structure SiteMetadata where
  total_words : Nat
  page_types : PageType → Nat
  pages_scraped : Nat

/-- Modelled from the spec: `SiteResult` — ordered sequence of
`PageRecord` plus aggregate metadata. -/
structure SiteResult where
  pages : List PageRecord
  metadata : SiteMetadata

/-- All page types, in declaration order, for summing per-type counts. -/
def allPageTypes : List PageType :=
  [.rooms, .pricing, .amenity, .dining, .policy, .contact, .about, .other]

/-- Modelled from the spec: assembling the `SiteResult` metadata from the
retained page sequence (`pages_scraped` = length of sequence, `page_types`
mapping type → count, `total_words`). -/
def mkSiteResult (pages : List PageRecord) : SiteResult :=
  { pages := pages
    metadata :=
      { total_words := (pages.map (fun p => p.word_count)).sum
        page_types := fun t => pages.countP (fun p => decide (p.page_type = t))
        pages_scraped := pages.length } }

/-- Modelled from the spec: what a successful fetch+extract of one URL
yields — extracted title, cleaned text, and raw outgoing links. -/
structure Page where
  title : String
  content : String
  links : List String

/-- Modelled from the spec: the abstract website — a successfully
fetched+parsed page per URL, or `none` for any fetch failure. -/
abbrev Site := String → Option Page

/-- Modelled from the spec: the error taxonomy of §7. -/
inductive FailureKind where
  | FetchFailure | ParseFailure | UnreachableSeed
  | DocumentReadFailure | EmptyDocument
deriving DecidableEq

/-- Modelled from the spec: terminal crawl session states of the state
machine `Idle -> Running -> {Completed, Aborted}`. -/
inductive SessionStatus where
  | Completed | Aborted
deriving DecidableEq

/-- Modelled from the spec: crawl configuration — page budget, the
minimum-word filter, and the politeness delay (seconds). -/
structure CrawlConfig where
  maxPages : Nat
  minWords : Nat
  delay : ℚ

/-! ## Crawler -/

/-- Modelled from the spec: the instant at which the Fetcher issues a
request asked for at time `req` — it first waits out the caller-supplied
minimum delay since the previous fetch. -/
def issueTime (delay : ℚ) (last : Option ℚ) (req : ℚ) : ℚ :=
  match last with
  | none => req
  | some t => max req (t + delay)

/-- Modelled from the spec: mutable crawl-session state — insertion-ordered
frontier queue, visited set (visited or queued), retained pages, recorded
failures, and the fetch clock (last issue instant, current time, log of
issue instants). -/
structure CrawlState where
  frontier : List String
  visited : List String
  pages : List PageRecord
  failures : List (String × FailureKind)
  lastFetch : Option ℚ
  now : ℚ
  fetchLog : List ℚ

/-- Modelled from the spec: the visited-set gate — a URL already visited
or already queued is never re-enqueued. -/
def enqueue (fv : List String × List String) (l : String) : List String × List String :=
  if l ∈ fv.2 then fv else (fv.1 ++ [l], l :: fv.2)

/-- Enqueues every link in order through the visited-set gate. -/
def enqueueAll (frontier visited : List String) (ls : List String) : List String × List String :=
  ls.foldl enqueue (frontier, visited)

/-- Modelled from the spec: path fragments whose URLs are never crawled
(login, admin, cart, checkout). -/
def disallowedPaths : List String := ["login", "admin", "cart", "checkout"]

/-- Modelled from the spec: link filter — same-domain only, disallow-list
filtered. -/
def allowedLink (base l : String) : Bool :=
  hostOf l == hostOf base && !(disallowedPaths.any (fun p => containsSub l p))

/-- Modelled from the spec: normalized, filtered in-domain links extracted
from a fetched page. -/
def newLinks (base : String) (pg : Page) : List String :=
  (pg.links.map normalizeUrl).filter (fun l => allowedLink base l)

/-- Modelled from the spec: the `PageRecord` built from one successfully
fetched page. -/
def mkPageRecord (u : String) (pg : Page) (t : ℚ) : PageRecord :=
  { url := u
    title := pg.title
    content := pg.content
    page_type := classify u pg.content
    word_count := countWords pg.content
    fetched_at := t }

/-- Modelled from the spec: the crawl loop — repeatedly pop the next
frontier URL, fetch (timing through `issueTime`), on failure record the
failure and continue, on success extract/classify, and if the page passes
the minimum-word filter enqueue its in-domain links and append its
`PageRecord`; stop when the budget is reached or the frontier is empty.
`lat` gives the network latency of each fetch; `fuel` bounds the number
of loop iterations (the theorems hold for every fuel). -/
def crawlLoop (site : Site) (lat : String → ℚ) (cfg : CrawlConfig) :
    Nat → CrawlState → CrawlState
  | 0, s => s
  | fuel + 1, s =>
    if cfg.maxPages ≤ s.pages.length then s
    else
      match s.frontier with
      | [] => s
      | u :: rest =>
        let t := issueTime cfg.delay s.lastFetch s.now
        let s1 : CrawlState :=
          { s with frontier := rest, lastFetch := some t, now := t + lat u,
                   fetchLog := s.fetchLog ++ [t] }
        match site u with
        | none =>
          crawlLoop site lat cfg fuel
            { s1 with failures := s.failures ++ [(u, FailureKind.FetchFailure)] }
        | some pg =>
          if countWords pg.content < cfg.minWords then
            crawlLoop site lat cfg fuel s1
          else
            let fv := enqueueAll rest s.visited (newLinks u pg)
            crawlLoop site lat cfg fuel
              { s1 with frontier := fv.1, visited := fv.2,
                        pages := s.pages ++ [mkPageRecord u pg t] }

/-- Modelled from the spec: initial crawl state — frontier and visited set
seeded with the normalized seed URL. -/
def initState (seed : String) : CrawlState :=
  { frontier := [normalizeUrl seed]
    visited := [normalizeUrl seed]
    pages := []
    failures := []
    lastFetch := none
    now := 0
    fetchLog := [] }

/-- Modelled from the spec: the outcome of one crawl session — terminal
status, the `SiteResult`, accumulated failures, and the log of fetch issue
instants. -/
structure CrawlOutcome where
  status : SessionStatus
  result : SiteResult
  failures : List (String × FailureKind)
  fetchLog : List ℚ

/-- Modelled from the spec: `scrape(seed_url, max_pages, delay_seconds) ->
SiteResult` — if the seed URL itself is unreachable the session is
`Aborted` with failure kind `UnreachableSeed` and an empty result;
otherwise the crawl loop runs and the session completes. -/
def crawl (site : Site) (lat : String → ℚ) (cfg : CrawlConfig)
    (seed : String) (fuel : Nat) : CrawlOutcome :=
  let s0 := normalizeUrl seed
  match site s0 with
  | none =>
    { status := SessionStatus.Aborted
      result := mkSiteResult []
      failures := [(s0, FailureKind.UnreachableSeed)]
      fetchLog := [issueTime cfg.delay none 0] }
  | some _ =>
    let fs := crawlLoop site lat cfg fuel (initState seed)
    { status := SessionStatus.Completed
      result := mkSiteResult fs.pages
      failures := fs.failures
      fetchLog := fs.fetchLog }

/-! ## Chunker -/

/-- Modelled from the spec: chunker configuration — maximum and minimum
chunk text length and the overlap carried between consecutive windows. -/
structure ChunkConfig where
  maxLen : Nat
  minLen : Nat
  overlap : Nat

/-- Modelled from the spec: provenance kind of a chunk (web page or
uploaded document). -/
inductive SourceType where
  | web | document
deriving DecidableEq

/-- Modelled from the spec: `KnowledgeChunk` — a bounded text segment with
provenance metadata, the unit handed to the embedding/storage
collaborator. -/
structure KnowledgeChunk where
  chunk_id : String
  text : String
  source_type : SourceType
  source_ref : String
  page_type_or_origin : String
  position : Nat
  overlap_with_prev : Bool

/-- Modelled from the spec: chunk IDs are computed deterministically from
(source_ref, position). -/
def mkChunkId (ref : String) (pos : Nat) : String :=
  ref ++ ":" ++ toString pos

/-- Modelled from the spec: recognition of sentence/paragraph boundaries
for the chunker's "split on paragraph/sentence boundaries" rule. -/
def isSentenceEnd (c : Char) : Bool :=
  c == '.' || c == '!' || c == '?' || c == '\n'

/-- Accumulating sentence splitter: `cur` holds the reversed characters of
the sentence being read; each boundary character ends a sentence and is
kept with it. -/
def splitSentencesGo (cur : List Char) : List Char → List (List Char)
  | [] => if cur.isEmpty then [] else [cur.reverse]
  | c :: cs =>
    if isSentenceEnd c then (c :: cur).reverse :: splitSentencesGo [] cs
    else splitSentencesGo (c :: cur) cs

/-- Modelled from the spec: splitting a text unit into its sentences
(boundary characters kept), the units the chunker packs into windows. -/
def splitSentences (l : List Char) : List (List Char) :=
  splitSentencesGo [] l

/-- Modelled from the spec: the overlap carried into the next window — the
last `overlap` characters of the window just emitted, "so context is not
lost at boundaries". -/
def overlapSeed (overlap : Nat) (cur : List Char) : List Char :=
  cur.drop (cur.length - overlap)

/-- Modelled from the spec: sentence-aware window packing.  Sentences are
accumulated into the current window `cur` while they fit within `maxLen`.
When the next sentence would overflow, the window — which ends at a
sentence boundary — is emitted, but only if it already holds at least
`minLen` characters; the next window starts from the overlap seed.  A
sentence is split mid-sentence only as a last resort: when the window is
still below `minLen` (emitting at the boundary would break the §3 size
invariant) or when a single sentence exceeds the space remaining in a
fresh window (the spec's oversized-sentence rule).  `fuel` bounds the
recursion; every step that recurses consumes sentence characters, so
`2 * length + 2` fuel is never exhausted. -/
def packGo (maxLen minLen overlap : Nat) : Nat → List Char → List (List Char) → List (List Char)
  | 0, cur, _ => if cur.isEmpty then [] else [cur]
  | _ + 1, cur, [] => if cur.isEmpty then [] else [cur]
  | fuel + 1, cur, s :: rest =>
    if cur.length + s.length ≤ maxLen then
      packGo maxLen minLen overlap fuel (cur ++ s) rest
    else if minLen ≤ cur.length then
      if (overlapSeed overlap cur).length + s.length ≤ maxLen then
        cur :: packGo maxLen minLen overlap fuel (overlapSeed overlap cur ++ s) rest
      else
        cur :: packGo maxLen minLen overlap fuel
          (overlapSeed overlap cur ++ s.take (maxLen - (overlapSeed overlap cur).length))
          (s.drop (maxLen - (overlapSeed overlap cur).length) :: rest)
    else
      packGo maxLen minLen overlap fuel (cur ++ s.take (maxLen - cur.length))
        (s.drop (maxLen - cur.length) :: rest)

/-- Modelled from the spec: splitting one text unit into overlapping,
bounded, sentence-boundary-respecting windows. -/
def chunkWindows (cfg : ChunkConfig) (l : List Char) : List (List Char) :=
  packGo cfg.maxLen cfg.minLen cfg.overlap (2 * l.length + 2) [] (splitSentences l)

/-- Builds the chunk record for window `w` at position `i` of its source
unit. -/
def mkChunk (cfg : ChunkConfig) (stype : SourceType) (ref origin : String)
    (i : Nat) (w : List Char) : KnowledgeChunk :=
  { chunk_id := mkChunkId ref i
    text := String.mk w
    source_type := stype
    source_ref := ref
    page_type_or_origin := origin
    position := i
    overlap_with_prev := decide (0 < i) && decide (0 < cfg.overlap) }

/-- Attaches positions `i, i+1, ...` to the windows of one source unit. -/
def chunkUnitGo (cfg : ChunkConfig) (stype : SourceType) (ref origin : String) :
    Nat → List (List Char) → List KnowledgeChunk
  | _, [] => []
  | i, w :: ws => mkChunk cfg stype ref origin i w :: chunkUnitGo cfg stype ref origin (i + 1) ws

/-- Modelled from the spec: `chunk(source)` on one text unit (a
`PageRecord.content` or one `DocumentRecord` segment) — trims the unit
(empty or whitespace-only units produce zero chunks), splits it into
overlapping windows and attaches provenance and deterministic IDs. -/
def chunkUnit (cfg : ChunkConfig) (stype : SourceType) (ref origin text : String) :
    List KnowledgeChunk :=
  chunkUnitGo cfg stype ref origin 0 (chunkWindows cfg (trimChars text.toList))

/-- Modelled from the spec: a readable label per page type, used as chunk
provenance. -/
def pageTypeName : PageType → String
  | .rooms => "rooms"
  | .pricing => "pricing"
  | .amenity => "amenity"
  | .dining => "dining"
  | .policy => "policy"
  | .contact => "contact"
  | .about => "about"
  | .other => "other"

/-- Modelled from the spec: default chunker configuration (configuration
with documented defaults, not a hard requirement). -/
def defaultChunkConfig : ChunkConfig :=
  { maxLen := 500, minLen := 50, overlap := 50 }

/-- Modelled from the spec: `create_knowledge_chunks` — chunks every page
of a crawl's `SiteResult` in order. -/
def create_knowledge_chunks (scraped : SiteResult) : List KnowledgeChunk :=
  (scraped.pages.map (fun p =>
    chunkUnit defaultChunkConfig SourceType.web p.url (pageTypeName p.page_type) p.content)).flatten

/-! ## Document ingestor -/

/-- Modelled from the spec: kind of an uploaded document. -/
inductive SourceKind where
  | pdf | spreadsheet
deriving DecidableEq

/-- Modelled from the spec: `DocumentRecord` — one uploaded file with its
ordered extracted text segments (pages or sheets), origin index implicit
in the position. -/
structure DocumentRecord where
  source_name : String
  source_kind : SourceKind
  segments : List String

/-- Does this extracted segment hold any extractable text? -/
def segmentHasText (s : String) : Bool :=
  !(trimChars s.toList).isEmpty

/-- Modelled from the spec: PDF ingestion — `file` is the per-page
extraction result of the unseen PDF reader (`none` for an
unreadable/corrupt file, otherwise one extracted text per page, the empty
string for image-only pages).  Pages without extractable text are recorded
as empty segments rather than failing the document; the document fails
with `EmptyDocument` only when no segment has text. -/
def ingestPdf (name : String) (file : Option (List String)) :
    Except FailureKind DocumentRecord :=
  match file with
  | none => Except.error FailureKind.DocumentReadFailure
  | some pages =>
    if pages.all (fun s => !(segmentHasText s)) then
      Except.error FailureKind.EmptyDocument
    else
      Except.ok { source_name := name, source_kind := SourceKind.pdf, segments := pages }

/-! ## Presentation layer (translated from src/streamlit_app.py) -/

/-- Python truthiness of the strings involved (`None` is modelled as the
empty string; both are falsy). -/
def pyTruthy (s : String) : Bool := !(s == "")

/-- A Streamlit button returns `true` only when it was clicked, and a
disabled button cannot be clicked. -/
def stButton (disabled clicked : Bool) : Bool := !disabled && clicked

/-- Integer slider widget bounds, from `st.slider` in the source. -/
structure SliderConfig where
  min_value : Nat
  max_value : Nat
  value : Nat
  step : Nat

/-- The `Maximum Pages to Scrape` slider of `streamlit_app.py`
(min 5, max 50, default 20, step 5). -/
def maxPagesSlider : SliderConfig :=
  { min_value := 5, max_value := 50, value := 20, step := 5 }

/-- The values a slider widget can produce. -/
def sliderAdmits (c : SliderConfig) (n : Nat) : Prop :=
  c.min_value ≤ n ∧ n ≤ c.max_value ∧ ∃ k : Nat, n = c.min_value + k * c.step

/-- Rational number-input widget bounds, from `st.number_input` in the
source. -/
structure NumberInputConfig where
  min_value : ℚ
  max_value : ℚ
  value : ℚ
  step : ℚ

/-- The `Delay (seconds)` number input of `streamlit_app.py`
(min 1.0, max 5.0, default 2.0, step 0.5). -/
def delayNumberInput : NumberInputConfig :=
  { min_value := 1, max_value := 5, value := 2, step := 1/2 }

/-- The values a number-input widget can produce. -/
def numberInputAdmits (c : NumberInputConfig) (x : ℚ) : Prop :=
  c.min_value ≤ x ∧ x ≤ c.max_value ∧ ∃ k : Nat, x = c.min_value + k * c.step

/-- `can_scrape = st.session_state.hotel_id and website_url and
MODULES_AVAILABLE` (line 159 of the source). -/
def can_scrape (hotelId websiteUrl : String) (modules : Bool) : Bool :=
  pyTruthy hotelId && pyTruthy websiteUrl && modules

/-- The `Start Scraping` button fires: it is disabled unless `can_scrape`
(lines 161-166 of the source). -/
def scrapeButtonFires (hotelId websiteUrl : String) (modules clicked : Bool) : Bool :=
  stButton (!(can_scrape hotelId websiteUrl modules)) clicked

/-- The scrape handler returns from `main` early when the inner
`MODULES_AVAILABLE` re-check fails (lines 167-169 of the source), which
skips the preview section as well. -/
def mainReturnsEarly (hotelId websiteUrl : String) (modules clicked : Bool) : Bool :=
  scrapeButtonFires hotelId websiteUrl modules clicked && !modules

/-- The `RealHotelScraper(max_pages=max_pages, delay=delay)` call of the
scrape handler is reached (line 180 of the source). -/
def scrapeCallHappens (hotelId websiteUrl : String) (modules clicked : Bool) : Bool :=
  scrapeButtonFires hotelId websiteUrl modules clicked && modules

/-- The `RealHotelScraper(max_pages=3, delay=1.0)` call of the preview
expander is reached (lines 231-234 of the source): the preview button is
never disabled and its guard checks only `website_url` and
`MODULES_AVAILABLE`, not the hotel ID. -/
def previewCallHappens (hotelId websiteUrl : String)
    (modules scrapeClicked previewClicked : Bool) : Bool :=
  !(mainReturnsEarly hotelId websiteUrl modules scrapeClicked) &&
    stButton false previewClicked && pyTruthy websiteUrl && modules

/-- `max_pages` of the preview path's scraper call (line 234 of the
source). -/
def previewMaxPages : Nat := 3

/-- `delay` of the preview path's scraper call (line 234 of the source). -/
def previewDelay : ℚ := 1

/-! ## Helper lemmas -/

/-- Each page contributes exactly one to the per-type counts, so the counts
sum to the number of pages. -/
lemma countP_type_sum (pages : List PageRecord) :
    (allPageTypes.map (fun t => pages.countP (fun p => decide (p.page_type = t)))).sum
      = pages.length := by
  induction pages with
  | nil => simp
  | cons p tl ih =>
    simp only [allPageTypes, List.map_cons, List.map_nil, List.sum_cons, List.sum_nil,
      List.countP_cons, List.length_cons] at *
    cases hp : p.page_type <;> simp [hp] <;> omega

/-- The crawl loop never grows the page sequence beyond the budget. -/
lemma crawlLoop_budget (site : Site) (lat : String → ℚ) (cfg : CrawlConfig) :
    ∀ fuel s, s.pages.length ≤ cfg.maxPages →
      (crawlLoop site lat cfg fuel s).pages.length ≤ cfg.maxPages := by
  intro fuel
  induction fuel with
  | zero => intro s h; simpa [crawlLoop] using h
  | succ n ih =>
    intro s h
    by_cases hb : cfg.maxPages ≤ s.pages.length
    · simpa [crawlLoop, hb] using h
    · cases hf : s.frontier with
      | nil => simpa [crawlLoop, hb, hf] using h
      | cons u rest =>
        cases hs : site u with
        | none => simp only [crawlLoop, hb, hf, hs, if_false]; exact ih _ (by simpa using h)
        | some pg =>
          by_cases hw : countWords pg.content < cfg.minWords
          · simp only [crawlLoop, hb, hf, hs, hw, if_false, if_true]; exact ih _ (by simpa using h)
          · simp only [crawlLoop, hb, hf, hs, hw, if_false]
            exact ih _ (by simp; omega)

/-! ## Claim theorems -/

/-- Claim C1: for every completed crawl, `pages_scraped` equals the length
of the `PageRecord` sequence and the per-type counts in `page_types` sum
to `pages_scraped`. -/
theorem claim1_site_metadata_consistent (site : Site) (lat : String → ℚ)
    (cfg : CrawlConfig) (seed : String) (fuel : Nat) :
    (crawl site lat cfg seed fuel).result.metadata.pages_scraped
        = (crawl site lat cfg seed fuel).result.pages.length ∧
    (allPageTypes.map
        (fun t => (crawl site lat cfg seed fuel).result.metadata.page_types t)).sum
      = (crawl site lat cfg seed fuel).result.metadata.pages_scraped := by
  cases h : site (normalizeUrl seed) <;>
    simp [crawl, h, mkSiteResult, countP_type_sum]

/-- Claim C7: a PDF page without extractable text becomes an empty segment
rather than failing the document, so a successfully ingested PDF with `n`
extracted pages has exactly those `n` segments; ingestion fails with
`EmptyDocument` exactly when no segment has text, and succeeds as soon as
one does. -/
theorem claim7_pdf_ingestion (name : String) (pages : List String) :
    (∀ r, ingestPdf name (some pages) = Except.ok r → r.segments = pages) ∧
    (ingestPdf name (some pages) = Except.error FailureKind.EmptyDocument ↔
      ∀ s ∈ pages, segmentHasText s = false) ∧
    ((∃ s ∈ pages, segmentHasText s = true) →
      ∃ r, ingestPdf name (some pages) = Except.ok r ∧
        r.segments.length = pages.length) := by
  refine ⟨?_, ?_, ?_⟩
  · intro r hr
    by_cases hall : pages.all (fun s => !(segmentHasText s)) <;>
      simp [ingestPdf, hall] at hr
    exact hr ▸ rfl
  · by_cases hall : pages.all (fun s => !(segmentHasText s))
    · simp only [ingestPdf, hall, if_true]
      constructor
      · intro _ s hs
        have := List.all_eq_true.mp hall s hs
        simpa using this
      · intro _; trivial
    · simp only [ingestPdf, hall, if_false]
      constructor
      · intro h; cases h
      · intro h
        exact absurd (List.all_eq_true.mpr (fun s hs => by simpa using h s hs)) hall
  · rintro ⟨s, hs, htext⟩
    have hall : ¬ pages.all (fun x => !(segmentHasText x)) := by
      intro hall
      have := List.all_eq_true.mp hall s hs
      simp [htext] at this
    exact ⟨⟨name, SourceKind.pdf, pages⟩, by simp [ingestPdf, hall], rfl⟩

/-- Witness for claim C7: the spec's scenario — a PDF with five pages, two
of them image-only, ingests successfully with five segments. -/
theorem claim7_pdf_ingestion_witness :
    (∃ s ∈ ["room text", "", "rates text", "", "dining text"], segmentHasText s = true) ∧
    ∃ r, ingestPdf "menu.pdf" (some ["room text", "", "rates text", "", "dining text"])
          = Except.ok r ∧
        r.segments.length = (["room text", "", "rates text", "", "dining text"] : List String).length :=
  ⟨⟨"room text", by decide, by decide⟩,
    (claim7_pdf_ingestion "menu.pdf" ["room text", "", "rates text", "", "dining text"]).2.2
      ⟨"room text", by decide, by decide⟩⟩

/-- Claim C9: every value the source's UI widgets can supply (the page
slider's 5..50 range, the delay input's 1.0..5.0 range, and the preview
path's hard-coded 3 and 1.0) lies inside the spec's stated domain
(`max_pages` in [1, upper bound], `delay_seconds` ≥ 0); the stated domain
is strictly wider than what the UI supplies; and the crawl honours its
budget for every `max_pages` in the stated domain. -/
theorem claim9_scrape_domain (ub : Nat) (hub : 50 ≤ ub) :
    (∀ n : Nat, sliderAdmits maxPagesSlider n → 1 ≤ n ∧ n ≤ ub) ∧
    (∀ x : ℚ, numberInputAdmits delayNumberInput x → 0 ≤ x) ∧
    (1 ≤ previewMaxPages ∧ previewMaxPages ≤ ub ∧ 0 ≤ previewDelay) ∧
    (¬ sliderAdmits maxPagesSlider 1 ∧ 1 ≤ ub ∧
      ¬ numberInputAdmits delayNumberInput 0) ∧
    (∀ (site : Site) (lat : String → ℚ) (mw : Nat) (d : ℚ) (seed : String)
        (fuel n : Nat), 1 ≤ n → n ≤ ub → (0:ℚ) ≤ d →
      (crawl site lat ⟨n, mw, d⟩ seed fuel).result.pages.length ≤ n) := by
  refine ⟨?_, ?_, ?_, ⟨?_, ?_, ?_⟩, ?_⟩
  · rintro n ⟨h1, h2, -⟩
    simp [maxPagesSlider] at h1 h2
    omega
  · rintro x ⟨h1, -, -⟩
    simp [delayNumberInput] at h1
    linarith
  · refine ⟨by decide, by simp only [previewMaxPages]; omega, by norm_num [previewDelay]⟩
  · rintro ⟨h1, -, -⟩
    simp [maxPagesSlider] at h1
  · omega
  · rintro ⟨h1, -, -⟩
    simp [delayNumberInput] at h1
    linarith
  · intro site lat mw d seed fuel n h1 h2 hd
    cases h : site (normalizeUrl seed)
    · simp [crawl, h, mkSiteResult]
    · simpa [crawl, h, mkSiteResult] using
        crawlLoop_budget site lat ⟨n, mw, d⟩ fuel (initState seed) (by simp [initState])

/-- Witness for claim C9: the defaults the UI actually supplies (20 pages,
2.0 seconds) are admitted by the widgets and land inside the stated
domain with upper bound 50. -/
theorem claim9_scrape_domain_witness :
    (50 ≤ 50) ∧ sliderAdmits maxPagesSlider 20 ∧
      numberInputAdmits delayNumberInput 2 ∧
      (1 ≤ 20 ∧ 20 ≤ 50) ∧ (0:ℚ) ≤ 2 :=
  ⟨by decide, ⟨by decide, by decide, 3, by decide⟩, ⟨by norm_num [delayNumberInput], by norm_num [delayNumberInput], 2, by norm_num [delayNumberInput]⟩,
    (claim9_scrape_domain 50 (by decide)).1 20 ⟨by decide, by decide, 3, by decide⟩,
    (claim9_scrape_domain 50 (by decide)).2.1 2 ⟨by norm_num [delayNumberInput], by norm_num [delayNumberInput], 2, by norm_num [delayNumberInput]⟩⟩

/-- Claim C10 counterexample: with an empty hotel ID, a non-empty website
URL and modules available, clicking `Generate Preview` reaches the
`RealHotelScraper` call on line 234 of the source even though the hotel ID
is empty — so not every execution path reaching a `RealHotelScraper` call
has a non-empty hotel ID. -/
theorem claim10_counterexample :
    previewCallHappens "" "https://hotel.example" true false true = true ∧
    pyTruthy "" = false := by
  exact ⟨by decide, by decide⟩

/-- Claim C10 (amended): every execution path that reaches a
`RealHotelScraper` call has a non-empty website URL and successfully
imported scraper modules; the Start-Scraping path (line 180) additionally
requires a non-empty hotel ID, while the preview path (line 234) does
not check the hotel ID. -/
theorem claim10_scrape_gating (hotelId websiteUrl : String)
    (modules scrapeClicked previewClicked : Bool) :
    (scrapeCallHappens hotelId websiteUrl modules scrapeClicked = true →
      pyTruthy hotelId = true ∧ pyTruthy websiteUrl = true ∧ modules = true) ∧
    (previewCallHappens hotelId websiteUrl modules scrapeClicked previewClicked = true →
      pyTruthy websiteUrl = true ∧ modules = true) := by
  constructor
  · intro h
    simp [scrapeCallHappens, scrapeButtonFires, stButton, can_scrape] at h
    tauto
  · intro h
    simp [previewCallHappens, stButton] at h
    tauto

/-- Witness for claim C10 (amended): a fully configured session clicking
Start Scraping reaches the scrape call with all three conditions holding. -/
theorem claim10_scrape_gating_witness :
    scrapeCallHappens "grand_plaza_001" "https://hotel.example" true true = true ∧
    (pyTruthy "grand_plaza_001" = true ∧ pyTruthy "https://hotel.example" = true ∧
      true = true) :=
  ⟨by decide,
    (claim10_scrape_gating "grand_plaza_001" "https://hotel.example" true true false).1
      (by decide)⟩

/-! ## Chunker lemmas -/

/-- The length of a `String.mk` is the length of its character list. -/
lemma length_string_mk (l : List Char) : (String.mk l).length = l.length := rfl

/-- Positions attached by `chunkUnitGo` form a contiguous index range. -/
lemma chunkUnitGo_length (cfg : ChunkConfig) (stype : SourceType) (ref origin : String) :
    ∀ (ws : List (List Char)) (i : Nat),
      (chunkUnitGo cfg stype ref origin i ws).length = ws.length := by
  intro ws
  induction ws with
  | nil => intro i; rfl
  | cons w ws ih => intro i; simp [chunkUnitGo, ih]

/-- The chunk IDs of one source unit are exactly `mkChunkId ref` applied to
the positions `i, i+1, ...`. -/
lemma chunkUnitGo_map_id (cfg : ChunkConfig) (stype : SourceType) (ref origin : String) :
    ∀ (ws : List (List Char)) (i : Nat),
      (chunkUnitGo cfg stype ref origin i ws).map (fun c => c.chunk_id)
        = (List.range' i ws.length).map (mkChunkId ref) := by
  intro ws
  induction ws with
  | nil => intro i; rfl
  | cons w ws ih => intro i; simp [chunkUnitGo, mkChunk, List.range'_succ, ih]

/-- The positions of one source unit's chunks are `i, i+1, ...`. -/
lemma chunkUnitGo_map_pos (cfg : ChunkConfig) (stype : SourceType) (ref origin : String) :
    ∀ (ws : List (List Char)) (i : Nat),
      (chunkUnitGo cfg stype ref origin i ws).map (fun c => c.position)
        = List.range' i ws.length := by
  intro ws
  induction ws with
  | nil => intro i; rfl
  | cons w ws ih => intro i; simp [chunkUnitGo, mkChunk, List.range'_succ, ih]

/-- The texts of one source unit's chunks are its windows. -/
lemma chunkUnitGo_map_text (cfg : ChunkConfig) (stype : SourceType) (ref origin : String) :
    ∀ (ws : List (List Char)) (i : Nat),
      (chunkUnitGo cfg stype ref origin i ws).map (fun c => c.text)
        = ws.map String.mk := by
  intro ws
  induction ws with
  | nil => intro i; rfl
  | cons w ws ih => intro i; simp [chunkUnitGo, mkChunk, ih]

/-- Unfolding of one packing step on a non-empty sentence stream. -/
lemma packGo_cons (maxLen minLen overlap fuel : Nat) (cur s : List Char)
    (rest : List (List Char)) :
    packGo maxLen minLen overlap (fuel + 1) cur (s :: rest)
      = if cur.length + s.length ≤ maxLen then
          packGo maxLen minLen overlap fuel (cur ++ s) rest
        else if minLen ≤ cur.length then
          if (overlapSeed overlap cur).length + s.length ≤ maxLen then
            cur :: packGo maxLen minLen overlap fuel (overlapSeed overlap cur ++ s) rest
          else
            cur :: packGo maxLen minLen overlap fuel
              (overlapSeed overlap cur ++ s.take (maxLen - (overlapSeed overlap cur).length))
              (s.drop (maxLen - (overlapSeed overlap cur).length) :: rest)
        else
          packGo maxLen minLen overlap fuel (cur ++ s.take (maxLen - cur.length))
            (s.drop (maxLen - cur.length) :: rest) := by
  rw [packGo]

/-- Every window the packer produces is at most `maxLen` characters long:
the running window never exceeds `maxLen`, because a sentence is appended
whole only when it fits and is otherwise cut to the space remaining. -/
lemma packGo_le (maxLen minLen overlap : Nat) :
    ∀ fuel (cur : List Char) (sents : List (List Char)), cur.length ≤ maxLen →
      ∀ w ∈ packGo maxLen minLen overlap fuel cur sents, w.length ≤ maxLen := by
  intro fuel
  induction fuel with
  | zero =>
    intro cur sents hcur w hw
    by_cases hc : cur.isEmpty <;> simp [packGo, hc] at hw
    · exact hw ▸ hcur
  | succ n ih =>
    intro cur sents hcur w hw
    cases sents with
    | nil =>
      by_cases hc : cur.isEmpty <;> simp [packGo, hc] at hw
      · exact hw ▸ hcur
    | cons s rest =>
      rw [packGo_cons] at hw
      by_cases h1 : cur.length + s.length ≤ maxLen
      · rw [if_pos h1] at hw
        exact ih _ _ (by simp; omega) w hw
      · rw [if_neg h1] at hw
        have hseed : (overlapSeed overlap cur).length ≤ cur.length := by
          simp [overlapSeed]
        by_cases h2 : minLen ≤ cur.length
        · rw [if_pos h2] at hw
          by_cases h3 : (overlapSeed overlap cur).length + s.length ≤ maxLen
          · rw [if_pos h3] at hw
            rcases List.mem_cons.1 hw with hw | hw
            · exact hw ▸ hcur
            · exact ih _ _ (by simp; omega) w hw
          · rw [if_neg h3] at hw
            rcases List.mem_cons.1 hw with hw | hw
            · exact hw ▸ hcur
            · refine ih _ _ ?_ w hw
              simp [List.length_take]
              omega
        · rw [if_neg h2] at hw
          refine ih _ _ ?_ w hw
          simp [List.length_take]
          omega

/-- Every window except the unit's last holds at least `minLen`
characters: a window is emitted before the stream ends only in the
boundary-emit branch, which the packer takes only once the window has
reached `minLen` (below that it hard-splits the sentence instead). -/
lemma packGo_min (maxLen minLen overlap : Nat) :
    ∀ fuel (cur : List Char) (sents : List (List Char)) (i : Nat),
      i + 1 < (packGo maxLen minLen overlap fuel cur sents).length →
      ∀ w, (packGo maxLen minLen overlap fuel cur sents).get? i = some w →
        minLen ≤ w.length := by
  intro fuel
  induction fuel with
  | zero =>
    intro cur sents i hi w hw
    by_cases hc : cur.isEmpty <;> simp [packGo, hc] at hi
  | succ n ih =>
    intro cur sents i hi w hw
    cases sents with
    | nil =>
      by_cases hc : cur.isEmpty <;> simp [packGo, hc] at hi
    | cons s rest =>
      rw [packGo_cons] at hi hw
      by_cases h1 : cur.length + s.length ≤ maxLen
      · rw [if_pos h1] at hi hw
        exact ih _ _ i hi w hw
      · rw [if_neg h1] at hi hw
        by_cases h2 : minLen ≤ cur.length
        · rw [if_pos h2] at hi hw
          by_cases h3 : (overlapSeed overlap cur).length + s.length ≤ maxLen
          · rw [if_pos h3] at hi hw
            cases i with
            | zero =>
              simp only [List.get?] at hw
              cases hw
              exact h2
            | succ j =>
              simp only [List.get?] at hw
              simp only [List.length_cons, Nat.add_lt_add_iff_right] at hi
              exact ih _ _ j hi w hw
          · rw [if_neg h3] at hi hw
            cases i with
            | zero =>
              simp only [List.get?] at hw
              cases hw
              exact h2
            | succ j =>
              simp only [List.get?] at hw
              simp only [List.length_cons, Nat.add_lt_add_iff_right] at hi
              exact ih _ _ j hi w hw
        · rw [if_neg h2] at hi hw
          exact ih _ _ i hi w hw

/-! ## Chunker claim theorems -/

/-- Claim C4: chunking is idempotent — two runs of the chunker on the same
source unit with the same configuration yield identical chunk_id sequences
and identical text content, and every chunk_id is computed
deterministically from (source_ref, position) with positions being the
chunk indices. -/
theorem claim4_chunking_idempotent (cfg : ChunkConfig) (stype : SourceType)
    (ref origin text : String) :
    ((chunkUnit cfg stype ref origin text).map (fun c => c.chunk_id)
        = (chunkUnit cfg stype ref origin text).map (fun c => c.chunk_id)) ∧
    ((chunkUnit cfg stype ref origin text).map (fun c => c.text)
        = (chunkUnit cfg stype ref origin text).map (fun c => c.text)) ∧
    ((chunkUnit cfg stype ref origin text).map (fun c => c.chunk_id)
        = (List.range (chunkUnit cfg stype ref origin text).length).map (mkChunkId ref)) ∧
    ((chunkUnit cfg stype ref origin text).map (fun c => c.position)
        = List.range (chunkUnit cfg stype ref origin text).length) := by
  refine ⟨rfl, rfl, ?_, ?_⟩
  · rw [chunkUnit, chunkUnitGo_map_id, chunkUnitGo_length, List.range_eq_range']
  · rw [chunkUnit, chunkUnitGo_map_pos, chunkUnitGo_length, List.range_eq_range']

/-- Claim C3: every chunk the chunker produces from a source unit is at
most `maxLen` characters long, and every chunk except the unit's last is
also at least `minLen` characters long: the packer emits a window at a
sentence boundary only once it holds `minLen` characters, and otherwise
hard-splits the sentence to keep every window within `maxLen`. -/
theorem claim3_chunk_size_bounds (cfg : ChunkConfig) (stype : SourceType)
    (ref origin text : String) :
    ∀ i (hi : i < (chunkUnit cfg stype ref origin text).length),
      ((chunkUnit cfg stype ref origin text).get ⟨i, hi⟩).text.length ≤ cfg.maxLen ∧
      (i + 1 < (chunkUnit cfg stype ref origin text).length →
        cfg.minLen ≤ ((chunkUnit cfg stype ref origin text).get ⟨i, hi⟩).text.length) := by
  intro i hi
  have hlen : (chunkUnit cfg stype ref origin text).length
      = (chunkWindows cfg (trimChars text.toList)).length :=
    chunkUnitGo_length cfg stype ref origin _ 0
  have hiw : i < (chunkWindows cfg (trimChars text.toList)).length := hlen ▸ hi
  have hmap : (chunkUnit cfg stype ref origin text).map (fun c => c.text)
      = (chunkWindows cfg (trimChars text.toList)).map String.mk :=
    chunkUnitGo_map_text cfg stype ref origin _ 0
  have h3 := congrArg (fun xs => xs.get? i) hmap
  simp only [List.get?_map] at h3
  rw [List.get?_eq_get hi, List.get?_eq_get hiw] at h3
  simp only [Option.map_some'] at h3
  have htext : ((chunkUnit cfg stype ref origin text).get ⟨i, hi⟩).text
      = String.mk ((chunkWindows cfg (trimChars text.toList)).get ⟨i, hiw⟩) :=
    Option.some.inj h3
  rw [htext, length_string_mk]
  constructor
  · exact packGo_le cfg.maxLen cfg.minLen cfg.overlap _ _ _ (Nat.zero_le _) _
      (List.get_mem _ i hiw)
  · intro hlast
    exact packGo_min cfg.maxLen cfg.minLen cfg.overlap _ _ _ i (hlen ▸ hlast) _
      (List.get?_eq_get hiw)

/-- Witness for claim C3: a concrete configuration (max 5, min 2,
overlap 1) on the text `abcdefgh` produces a first chunk within both
bounds. -/
theorem claim3_chunk_size_bounds_witness :
    0 < (chunkUnit ⟨5, 2, 1⟩ SourceType.web "https://h.example/rooms" "rooms" "abcdefgh").length ∧
    (((chunkUnit ⟨5, 2, 1⟩ SourceType.web "https://h.example/rooms" "rooms" "abcdefgh").get
        ⟨0, by decide⟩).text.length ≤ 5 ∧
      (0 + 1 < (chunkUnit ⟨5, 2, 1⟩ SourceType.web "https://h.example/rooms" "rooms" "abcdefgh").length →
        2 ≤ ((chunkUnit ⟨5, 2, 1⟩ SourceType.web "https://h.example/rooms" "rooms" "abcdefgh").get
          ⟨0, by decide⟩).text.length)) :=
  ⟨by decide,
    claim3_chunk_size_bounds ⟨5, 2, 1⟩ SourceType.web "https://h.example/rooms" "rooms"
      "abcdefgh" 0 (by decide)⟩

/-! ## Crawl session lemmas -/

/-- Taking while a predicate holds is idempotent. -/
lemma takeWhile_idem (p : Char → Bool) (l : List Char) :
    (l.takeWhile p).takeWhile p = l.takeWhile p := by
  induction l with
  | nil => rfl
  | cons c cs ih => by_cases h : p c <;> simp [List.takeWhile_cons, h, ih]

/-- URL normalization is idempotent, so normalized URLs are fixed points. -/
lemma normalizeUrl_idem (s : String) :
    normalizeUrl (normalizeUrl s) = normalizeUrl s := by
  simp only [normalizeUrl, String.toList]
  rw [takeWhile_idem]

/-- Every link of `newLinks` is already normalized. -/
lemma newLinks_norm (base : String) (pg : Page) :
    ∀ x ∈ newLinks base pg, normalizeUrl x = x := by
  intro x hx
  simp only [newLinks, List.mem_filter, List.mem_map] at hx
  obtain ⟨⟨y, -, rfl⟩, -⟩ := hx
  exact normalizeUrl_idem y

/-- Every URL the gate appends to the frontier comes from the link list. -/
lemma enqueue_fold_sub :
    ∀ (ls F V : List String) (x : String),
      x ∈ (ls.foldl enqueue (F, V)).1 → x ∈ F ∨ x ∈ ls := by
  intro ls
  induction ls with
  | nil => intro F V x hx; exact Or.inl hx
  | cons l ls ih =>
    intro F V x hx
    rw [List.foldl_cons] at hx
    by_cases hv : l ∈ V
    · rw [show enqueue (F, V) l = (F, V) from by simp [enqueue, hv]] at hx
      rcases ih F V x hx with h | h
      · exact Or.inl h
      · exact Or.inr (List.mem_cons_of_mem _ h)
    · rw [show enqueue (F, V) l = (F ++ [l], l :: V) from by simp [enqueue, hv]] at hx
      rcases ih _ _ x hx with h | h
      · rcases List.mem_append.1 h with h | h
        · exact Or.inl h
        · simp only [List.mem_singleton] at h
          subst h
          exact Or.inr (List.mem_cons_self _ _)
      · exact Or.inr (List.mem_cons_of_mem _ h)

/-- The visited-set gate preserves the crawl's dedup invariant: if the
already-produced URLs `P` plus the frontier are duplicate-free and all
covered by the visited set, the same holds after enqueuing any link
list. -/
lemma enqueue_fold_inv (P : List String) :
    ∀ (ls F V : List String), (P ++ F).Nodup → (∀ x ∈ P ++ F, x ∈ V) →
      (P ++ (ls.foldl enqueue (F, V)).1).Nodup ∧
      (∀ x ∈ P ++ (ls.foldl enqueue (F, V)).1, x ∈ (ls.foldl enqueue (F, V)).2) := by
  intro ls
  induction ls with
  | nil => intro F V h1 h2; exact ⟨h1, h2⟩
  | cons l ls ih =>
    intro F V h1 h2
    rw [List.foldl_cons]
    by_cases hv : l ∈ V
    · rw [show enqueue (F, V) l = (F, V) from by simp [enqueue, hv]]
      exact ih F V h1 h2
    · rw [show enqueue (F, V) l = (F ++ [l], l :: V) from by simp [enqueue, hv]]
      apply ih
      · have hnotin : l ∉ P ++ F := fun hmem => hv (h2 l hmem)
        rw [← List.append_assoc, List.nodup_append]
        refine ⟨h1, List.nodup_singleton l, ?_⟩
        intro a ha hb
        simp only [List.mem_singleton] at hb
        subst hb
        exact hnotin ha
      · intro x hx
        rw [← List.append_assoc] at hx
        rcases List.mem_append.1 hx with hx | hx
        · exact List.mem_cons_of_mem _ (h2 x hx)
        · simp only [List.mem_singleton] at hx
          subst hx
          exact List.mem_cons_self _ _

/-- The crawl loop preserves the dedup invariant: produced page URLs plus
the frontier stay duplicate-free, covered by the visited set, and
normalized. -/
lemma crawlLoop_urls (site : Site) (lat : String → ℚ) (cfg : CrawlConfig) :
    ∀ fuel s,
      (s.pages.map (fun p => p.url) ++ s.frontier).Nodup →
      (∀ x ∈ s.pages.map (fun p => p.url) ++ s.frontier, x ∈ s.visited) →
      (∀ x ∈ s.pages.map (fun p => p.url) ++ s.frontier, normalizeUrl x = x) →
      ((crawlLoop site lat cfg fuel s).pages.map (fun p => p.url)
          ++ (crawlLoop site lat cfg fuel s).frontier).Nodup ∧
      (∀ x ∈ (crawlLoop site lat cfg fuel s).pages.map (fun p => p.url)
          ++ (crawlLoop site lat cfg fuel s).frontier,
        normalizeUrl x = x) := by
  intro fuel
  induction fuel with
  | zero => intro s h1 h2 h3; exact ⟨by simpa [crawlLoop] using h1, by simpa [crawlLoop] using h3⟩
  | succ n ih =>
    intro s h1 h2 h3
    by_cases hb : cfg.maxPages ≤ s.pages.length
    · exact ⟨by simpa [crawlLoop, hb] using h1, by simpa [crawlLoop, hb] using h3⟩
    · cases hf : s.frontier with
      | nil => exact ⟨by simpa [crawlLoop, hb, hf] using h1, by simpa [crawlLoop, hb, hf] using h3⟩
      | cons u rest =>
        rw [hf] at h1 h2 h3
        have hsub : List.Sublist (s.pages.map (fun p => p.url) ++ rest)
            (s.pages.map (fun p => p.url) ++ u :: rest) :=
          List.Sublist.append_left (List.sublist_cons_self u rest) _
        have h1' : (s.pages.map (fun p => p.url) ++ rest).Nodup := h1.sublist hsub
        have h2' : ∀ x ∈ s.pages.map (fun p => p.url) ++ rest, x ∈ s.visited :=
          fun x hx => h2 x (hsub.mem hx)
        have h3' : ∀ x ∈ s.pages.map (fun p => p.url) ++ rest, normalizeUrl x = x :=
          fun x hx => h3 x (hsub.mem hx)
        cases hs : site u with
        | none =>
          simp only [crawlLoop, hb, if_false, hf, hs]
          exact ih _ h1' h2' h3'
        | some pg =>
          by_cases hw : countWords pg.content < cfg.minWords
          · simp only [crawlLoop, hb, if_false, hf, hs, hw, if_true]
            exact ih _ h1' h2' h3'
          · simp only [crawlLoop, hb, if_false, hf, hs, hw]
            -- the success step: appended page URL is u, links go through the gate
            have hcons : s.pages.map (fun p => p.url) ++ u :: rest
                = (s.pages.map (fun p => p.url) ++ [u]) ++ rest := by
              rw [List.append_assoc]
              rfl
            rw [hcons] at h1 h2
            have hgate := enqueue_fold_inv (s.pages.map (fun p => p.url) ++ [u])
              (newLinks u pg) rest s.visited h1 h2
            apply ih
            · simpa [List.map_append, mkPageRecord, enqueueAll, List.append_assoc]
                using hgate.1
            · intro x hx
              refine hgate.2 x ?_
              simpa [List.map_append, mkPageRecord, enqueueAll, List.append_assoc] using hx
            · intro x hx
              simp only [List.map_append, List.mem_append, List.map_cons, List.map_nil,
                List.mem_singleton, mkPageRecord] at hx
              rcases hx with (hx | hx) | hx
              · exact h3 x (by
                  rw [hcons]
                  exact List.mem_append_left _ (List.mem_append_left _ hx))
              · subst hx
                exact h3 _ (by
                  rw [hcons]
                  exact List.mem_append_left _ (List.mem_append_right _ (List.mem_singleton_self _)))
              · rcases enqueue_fold_sub (newLinks u pg) rest s.visited x hx with h | h
                · exact h3' x (List.mem_append_right _ h)
                · exact newLinks_norm u pg x h

/-! ## Crawl session claim theorems -/

/-- Claim C2: no two `PageRecord`s of one crawl's `SiteResult` share the
same normalized URL — the visited-set gate never re-enqueues a URL that
was already visited or queued, so every output URL is unique. -/
theorem claim2_no_duplicate_urls (site : Site) (lat : String → ℚ)
    (cfg : CrawlConfig) (seed : String) (fuel : Nat) :
    ((crawl site lat cfg seed fuel).result.pages.map
        (fun p => normalizeUrl p.url)).Nodup := by
  cases h : site (normalizeUrl seed) with
  | none => simp [crawl, h, mkSiteResult]
  | some pg =>
    have hinit1 : ((initState seed).pages.map (fun p => p.url)
        ++ (initState seed).frontier).Nodup := by
      simp [initState]
    have hinit2 : ∀ x ∈ (initState seed).pages.map (fun p => p.url)
        ++ (initState seed).frontier, x ∈ (initState seed).visited := by
      simp [initState]
    have hinit3 : ∀ x ∈ (initState seed).pages.map (fun p => p.url)
        ++ (initState seed).frontier, normalizeUrl x = x := by
      intro x hx
      simp only [initState, List.map_nil, List.nil_append, List.mem_singleton] at hx
      subst hx
      exact normalizeUrl_idem seed
    obtain ⟨hnd, hnorm⟩ := crawlLoop_urls site lat cfg fuel (initState seed) hinit1 hinit2 hinit3
    have hpages : (crawl site lat cfg seed fuel).result.pages
        = (crawlLoop site lat cfg fuel (initState seed)).pages := by
      simp [crawl, h, mkSiteResult]
    rw [hpages]
    have hmapeq : (crawlLoop site lat cfg fuel (initState seed)).pages.map
          (fun p => normalizeUrl p.url)
        = (crawlLoop site lat cfg fuel (initState seed)).pages.map (fun p => p.url) :=
      List.map_congr_left (fun p hp =>
        hnorm p.url (List.mem_append_left _ (List.mem_map_of_mem _ hp)))
    rw [hmapeq]
    exact hnd.sublist (List.sublist_append_left _ _)

/-- Claim C6: an unreachable seed aborts the session with zero pages and an
`UnreachableSeed` failure; a reachable seed always completes; and a fetch
failure on a URL popped mid-crawl records a `FetchFailure` and continues
with the rest of the frontier instead of aborting. -/
theorem claim6_failure_handling (site : Site) (lat : String → ℚ)
    (cfg : CrawlConfig) (seed : String) (fuel : Nat) :
    (site (normalizeUrl seed) = none →
      (crawl site lat cfg seed fuel).status = SessionStatus.Aborted ∧
      (crawl site lat cfg seed fuel).result.pages = [] ∧
      (normalizeUrl seed, FailureKind.UnreachableSeed)
        ∈ (crawl site lat cfg seed fuel).failures) ∧
    (∀ pg, site (normalizeUrl seed) = some pg →
      (crawl site lat cfg seed fuel).status = SessionStatus.Completed) ∧
    (∀ (n : Nat) (s : CrawlState) (u : String) (rest : List String),
      s.frontier = u :: rest → site u = none → s.pages.length < cfg.maxPages →
      crawlLoop site lat cfg (n + 1) s =
        crawlLoop site lat cfg n
          { frontier := rest, visited := s.visited, pages := s.pages,
            failures := s.failures ++ [(u, FailureKind.FetchFailure)],
            lastFetch := some (issueTime cfg.delay s.lastFetch s.now),
            now := issueTime cfg.delay s.lastFetch s.now + lat u,
            fetchLog := s.fetchLog ++ [issueTime cfg.delay s.lastFetch s.now] }) := by
  refine ⟨?_, ?_, ?_⟩
  · intro h
    simp [crawl, h, mkSiteResult]
  · intro pg h
    simp [crawl, h]
  · intro n s u rest hfr hs hlt
    rw [show crawlLoop site lat cfg (n + 1) s
        = if cfg.maxPages ≤ s.pages.length then s
          else match s.frontier with
            | [] => s
            | u :: rest =>
              let t := issueTime cfg.delay s.lastFetch s.now
              let s1 : CrawlState :=
                { s with frontier := rest, lastFetch := some t, now := t + lat u,
                         fetchLog := s.fetchLog ++ [t] }
              match site u with
              | none =>
                crawlLoop site lat cfg n
                  { s1 with failures := s.failures ++ [(u, FailureKind.FetchFailure)] }
              | some pg =>
                if countWords pg.content < cfg.minWords then crawlLoop site lat cfg n s1
                else
                  let fv := enqueueAll rest s.visited (newLinks u pg)
                  crawlLoop site lat cfg n
                    { s1 with frontier := fv.1, visited := fv.2,
                              pages := s.pages ++ [mkPageRecord u pg t] }
      from rfl]
    rw [if_neg (by omega), hfr]
    simp only [hs]

/-- Witness for claim C6: the spec's scenario — every URL of the site is
unreachable, so the crawl of any seed aborts with zero pages and reports
`UnreachableSeed`. -/
theorem claim6_failure_handling_witness :
    ((fun _ => none : Site) (normalizeUrl "https://h.example") = none) ∧
    ((crawl (fun _ => none) (fun _ => 0) ⟨20, 1, 2⟩ "https://h.example" 9).status
        = SessionStatus.Aborted ∧
      (crawl (fun _ => none) (fun _ => 0) ⟨20, 1, 2⟩ "https://h.example" 9).result.pages = [] ∧
      (normalizeUrl "https://h.example", FailureKind.UnreachableSeed)
        ∈ (crawl (fun _ => none) (fun _ => 0) ⟨20, 1, 2⟩ "https://h.example" 9).failures) :=
  ⟨rfl,
    (claim6_failure_handling (fun _ => none) (fun _ => 0) ⟨20, 1, 2⟩
      "https://h.example" 9).1 rfl⟩

/-- One fetch stamped at `issueTime` extends the politeness chain. -/
lemma clock_push (delay : ℚ) (log : List ℚ) (last : Option ℚ) (now : ℚ)
    (hc : List.Chain' (fun a b => a + delay ≤ b) log) (hl : log.getLast? = last) :
    List.Chain' (fun a b => a + delay ≤ b) (log ++ [issueTime delay last now]) := by
  rw [List.chain'_append]
  refine ⟨hc, List.chain'_singleton _, ?_⟩
  intro x hx y hy
  simp only [List.head?_cons, Option.mem_def, Option.some.injEq] at hy
  subst hy
  rw [hl] at hx
  cases last with
  | none => simp at hx
  | some t0 =>
    simp only [Option.mem_def, Option.some.injEq] at hx
    subst hx
    exact le_max_right _ _

/-- The crawl loop preserves the politeness invariant: the fetch log is a
chain of instants at least `delay` apart, ending at the last fetch. -/
lemma crawlLoop_clock (site : Site) (lat : String → ℚ) (cfg : CrawlConfig) :
    ∀ fuel s,
      List.Chain' (fun a b => a + cfg.delay ≤ b) s.fetchLog →
      s.fetchLog.getLast? = s.lastFetch →
      List.Chain' (fun a b => a + cfg.delay ≤ b) (crawlLoop site lat cfg fuel s).fetchLog ∧
      (crawlLoop site lat cfg fuel s).fetchLog.getLast?
        = (crawlLoop site lat cfg fuel s).lastFetch := by
  intro fuel
  induction fuel with
  | zero => intro s hc hl; exact ⟨by simpa [crawlLoop] using hc, by simpa [crawlLoop] using hl⟩
  | succ n ih =>
    intro s hc hl
    by_cases hb : cfg.maxPages ≤ s.pages.length
    · exact ⟨by simpa [crawlLoop, hb] using hc, by simpa [crawlLoop, hb] using hl⟩
    · cases hf : s.frontier with
      | nil => exact ⟨by simpa [crawlLoop, hb, hf] using hc, by simpa [crawlLoop, hb, hf] using hl⟩
      | cons u rest =>
        have hc' := clock_push cfg.delay s.fetchLog s.lastFetch s.now hc hl
        have hl' : (s.fetchLog ++ [issueTime cfg.delay s.lastFetch s.now]).getLast?
            = some (issueTime cfg.delay s.lastFetch s.now) := by
          simp
        cases hs : site u with
        | none =>
          simp only [crawlLoop, hb, if_false, hf, hs]
          exact ih _ hc' hl'
        | some pg =>
          by_cases hw : countWords pg.content < cfg.minWords
          · simp only [crawlLoop, hb, if_false, hf, hs, hw, if_true]
            exact ih _ hc' hl'
          · simp only [crawlLoop, hb, if_false, hf, hs, hw]
            exact ih _ hc' hl'

/-- Claim C8: politeness — within one crawl session, consecutive fetch
issue instants are always at least the configured delay apart, because
the Fetcher waits out the minimum delay since the previous fetch. -/
theorem claim8_politeness (site : Site) (lat : String → ℚ) (cfg : CrawlConfig)
    (seed : String) (fuel : Nat) :
    List.Chain' (fun a b => a + cfg.delay ≤ b) (crawl site lat cfg seed fuel).fetchLog := by
  cases h : site (normalizeUrl seed) with
  | none => simp [crawl, h]
  | some pg =>
    have := crawlLoop_clock site lat cfg fuel (initState seed)
      (by simp [initState]) (by simp [initState])
    simpa [crawl, h] using this.1

/-! ## Classifier lemmas -/

/-- The running best score never decreases along the fold. -/
lemma pickStep_snd_le (ws : List String) :
    ∀ (L : List PageType) (acc : PageType × Nat), acc.2 ≤ (L.foldl (pickStep ws) acc).2 := by
  intro L
  induction L with
  | nil => intro acc; exact le_refl _
  | cons t L ih =>
    intro acc
    rw [List.foldl_cons]
    refine le_trans ?_ (ih (pickStep ws acc t))
    by_cases h : keywordScore t ws > acc.2
    · simp only [pickStep, h, if_true]
      omega
    · simp [pickStep, h]

/-- A candidate whose score does not beat the running best is never
selected by the fold. -/
lemma pickStep_not_later (ws : List String) :
    ∀ (L : List PageType) (acc : PageType × Nat) (t' : PageType),
      keywordScore t' ws ≤ acc.2 → t' ≠ acc.1 →
      (L.foldl (pickStep ws) acc).1 ≠ t' := by
  intro L
  induction L with
  | nil => intro acc t' hle hne; exact Ne.symm hne
  | cons t L ih =>
    intro acc t' hle hne
    rw [List.foldl_cons]
    by_cases h : keywordScore t ws > acc.2
    · rw [show pickStep ws acc t = (t, keywordScore t ws) from by simp [pickStep, h]]
      apply ih
      · exact le_trans hle (le_of_lt h)
      · intro he
        have he' : t' = t := he
        rw [he'] at hle
        omega
    · rw [show pickStep ws acc t = acc from by simp [pickStep, h]]
      exact ih acc t' hle hne

/-- The fold's selection is the initial candidate or a list element. -/
lemma pick_mem (ws : List String) :
    ∀ (L : List PageType) (acc : PageType × Nat),
      (L.foldl (pickStep ws) acc).1 = acc.1 ∨ (L.foldl (pickStep ws) acc).1 ∈ L := by
  intro L
  induction L with
  | nil => intro acc; exact Or.inl rfl
  | cons t L ih =>
    intro acc
    rw [List.foldl_cons]
    by_cases h : keywordScore t ws > acc.2
    · rw [show pickStep ws acc t = (t, keywordScore t ws) from by simp [pickStep, h]]
      rcases ih (t, keywordScore t ws) with hm | hm
      · exact Or.inr (hm ▸ List.mem_cons_self _ _)
      · exact Or.inr (List.mem_cons_of_mem _ hm)
    · rw [show pickStep ws acc t = acc from by simp [pickStep, h]]
      rcases ih acc with hm | hm
      · exact Or.inl hm
      · exact Or.inr (List.mem_cons_of_mem _ hm)

/-- Claim C5: `classify` is deterministic on identical `(url, text)`
inputs, and ties in the density stage are broken by the fixed declaration
order — a type `t'` listed after `t` whose score does not exceed `t`'s is
never returned. -/
theorem claim5_classification_deterministic (url text : String)
    (L₁ L₂ : List PageType) (t t' : PageType)
    (horder : typeOrder = L₁ ++ t :: L₂) (ht' : t' ∈ L₂)
    (hsc : keywordScore t' (words text) ≤ keywordScore t (words text)) :
    classify url text = classify url text ∧
    (classifyByUrl url = none → classify url text ≠ t') := by
  refine ⟨rfl, ?_⟩
  intro hurl
  have hnd : typeOrder.Nodup := by decide
  rw [horder, List.nodup_append] at hnd
  have htnotin : t ∉ L₂ := (List.nodup_cons.1 hnd.2.1).1
  have ht't : t' ≠ t := fun he => htnotin (he ▸ ht')
  have ht'L₁ : t' ∉ L₁ := fun hmem => hnd.2.2 hmem (List.mem_cons_of_mem _ ht')
  have hother : PageType.other ∉ typeOrder := by decide
  have ht'other : t' ≠ PageType.other := by
    intro he
    subst he
    exact hother (horder ▸ List.mem_append_right _ (List.mem_cons_of_mem _ ht'))
  simp only [classify, hurl]
  have hsplit : pickBest (words text)
      = (t :: L₂).foldl (pickStep (words text))
          (L₁.foldl (pickStep (words text)) (PageType.other, 0)) := by
    rw [pickBest, horder, List.foldl_append]
  by_cases hth : densityThreshold ≤ (pickBest (words text)).2
  · rw [if_pos hth]
    rw [hsplit, List.foldl_cons]
    have hacc2score : keywordScore t (words text)
        ≤ (pickStep (words text) (L₁.foldl (pickStep (words text)) (PageType.other, 0)) t).2 := by
      by_cases h : keywordScore t (words text)
          > (L₁.foldl (pickStep (words text)) (PageType.other, 0)).2 <;>
        simp only [pickStep, h, if_true, if_false] <;> omega
    apply pickStep_not_later
    · exact le_trans hsc hacc2score
    · have hsel : (pickStep (words text) (L₁.foldl (pickStep (words text)) (PageType.other, 0)) t).1 = t ∨
          (pickStep (words text) (L₁.foldl (pickStep (words text)) (PageType.other, 0)) t).1
            = (L₁.foldl (pickStep (words text)) (PageType.other, 0)).1 := by
        by_cases h : keywordScore t (words text)
            > (L₁.foldl (pickStep (words text)) (PageType.other, 0)).2 <;>
          simp [pickStep, h]
      rcases hsel with h | h
      · rw [h]
        exact ht't
      · rw [h]
        rcases pick_mem (words text) L₁ (PageType.other, 0) with hm | hm
        · rw [hm]
          exact ht'other
        · intro he
          exact ht'L₁ (he ▸ hm)
  · rw [if_neg hth]
    exact Ne.symm ht'other

/-- Witness for claim C5: with an unclassifiable URL and empty text, every
score ties at zero, and the later-declared `pricing` is indeed not
returned over the earlier `rooms`. -/
theorem claim5_classification_deterministic_witness :
    (typeOrder = [] ++ PageType.rooms ::
        [PageType.pricing, PageType.amenity, PageType.dining, PageType.policy,
          PageType.contact, PageType.about]) ∧
    PageType.pricing ∈ [PageType.pricing, PageType.amenity, PageType.dining,
        PageType.policy, PageType.contact, PageType.about] ∧
    keywordScore PageType.pricing (words "") ≤ keywordScore PageType.rooms (words "") ∧
    classifyByUrl "zzz" = none ∧
    (classify "zzz" "" = classify "zzz" "" ∧ classify "zzz" "" ≠ PageType.pricing) :=
  ⟨rfl, by decide, by decide, by decide,
    (claim5_classification_deterministic "zzz" "" []
        [PageType.pricing, PageType.amenity, PageType.dining, PageType.policy,
          PageType.contact, PageType.about] PageType.rooms PageType.pricing
        rfl (by decide) (by decide)).1,
    (claim5_classification_deterministic "zzz" "" []
        [PageType.pricing, PageType.amenity, PageType.dining, PageType.policy,
          PageType.contact, PageType.about] PageType.rooms PageType.pricing
        rfl (by decide) (by decide)).2 (by decide)⟩

end HotelKB
